import Mathlib

/-!
Shallow embedding of `cfr_decompiler.py`, a three-mode Java-archive
decompilation helper built around the external CFR decompiler.

Modelling choices:
* A filesystem (`FS`) is an association list from paths (lists of name
  components) to files.  Directories are implicit; `mkdir` is a no-op.
* A file carries its byte content (`Content`), a read-only attribute
  (permission bits) and a modification time.
* The content of an archive file is modelled structurally: either opaque
  raw bytes (which fail to open as a zip, covering corrupt archives) or a
  decoded list of zip entries (relative path, data, read-only attribute).
* The external decompiler invocation is an oracle value `CFRResult`
  giving the process exit code, its captured stderr text and the files it
  wrote below the chosen output directory.
* OS-level failures tolerated by the artifact cleaner (`os.chmod` or
  `unlink` raising) are oracle predicates in `RmEnv`.
* `tempfile.TemporaryDirectory` trees are modelled as separate `FS`
  values that are simply dropped at scope exit, which captures both their
  freshness and their guaranteed cleanup.
-/

abbrev FPath := List String

inductive Content where
  | raw (s : String)
  | zip (entries : List (FPath × Content × Bool))

abbrev ZEntry := FPath × Content × Bool

structure DFile where
  content : Content
  readOnly : Bool
  mtime : Nat

abbrev FS := List (FPath × DFile)

/-- First file stored at path `p`, mirroring a filesystem lookup. -/
def lookupFS : FS → FPath → Option DFile
  | [], _ => none
  | e :: rest, p => if e.1 = p then some e.2 else lookupFS rest p

/-- Drop every entry stored at path `p`. -/
def removeFS : FS → FPath → FS
  | [], _ => []
  | e :: rest, p => if e.1 = p then removeFS rest p else e :: removeFS rest p

/-- Create or overwrite the file at path `p`. -/
def writeFS (fs : FS) (p : FPath) (f : DFile) : FS :=
  (p, f) :: removeFS fs p

/-- Write a batch of files in order (later writes win). -/
def writeMany (fs : FS) (items : List (FPath × DFile)) : FS :=
  items.foldl (fun cur it => writeFS cur it.1 it.2) fs

def keysOf (fs : FS) : List FPath := fs.map Prod.fst

theorem lookupFS_removeFS (fs : FS) (p q : FPath) :
    lookupFS (removeFS fs p) q = if p = q then none else lookupFS fs q := by
  induction fs with
  | nil => simp [removeFS, lookupFS]
  | cons e rest ih =>
    by_cases h1 : e.1 = p
    · by_cases h2 : p = q
      · simp only [removeFS, if_pos h1, ih, if_pos h2]
      · have h3 : ¬ e.1 = q := by rw [h1]; exact h2
        simp only [removeFS, if_pos h1, ih, if_neg h2, lookupFS, if_neg h3]
    · by_cases h2 : e.1 = q
      · have hpq : ¬ p = q := fun hh => h1 (h2.trans hh.symm)
        simp only [removeFS, if_neg h1, lookupFS, if_pos h2, if_neg hpq]
      · simp only [removeFS, if_neg h1, lookupFS, if_neg h2, ih]

theorem lookupFS_writeFS (fs : FS) (p : FPath) (f : DFile) (q : FPath) :
    lookupFS (writeFS fs p f) q = if p = q then some f else lookupFS fs q := by
  by_cases h : p = q
  · simp only [writeFS, lookupFS, if_pos h]
  · simp only [writeFS, lookupFS, if_neg h, lookupFS_removeFS]

theorem mem_removeFS {fs : FS} {p : FPath} {e : FPath × DFile} :
    e ∈ removeFS fs p → e ∈ fs := by
  induction fs with
  | nil => intro h; cases h
  | cons a rest ih =>
    by_cases h : a.1 = p
    · simp only [removeFS, if_pos h]
      intro hm
      exact List.mem_cons_of_mem a (ih hm)
    · simp only [removeFS, if_neg h]
      intro hm
      rcases List.mem_cons.1 hm with he | hm2
      · rw [he]; exact List.mem_cons_self a rest
      · exact List.mem_cons_of_mem a (ih hm2)

theorem keys_removeFS_sublist (fs : FS) (p : FPath) :
    List.Sublist (keysOf (removeFS fs p)) (keysOf fs) := by
  induction fs with
  | nil => exact List.Sublist.refl _
  | cons a rest ih =>
    by_cases h : a.1 = p
    · simp only [removeFS, if_pos h, keysOf, List.map_cons]
      exact ih.cons a.1
    · simp only [removeFS, if_neg h, keysOf, List.map_cons]
      exact ih.cons₂ a.1

theorem not_mem_keys_removeFS (fs : FS) (p : FPath) :
    p ∉ keysOf (removeFS fs p) := by
  induction fs with
  | nil => intro h; cases h
  | cons a rest ih =>
    by_cases h : a.1 = p
    · simp only [removeFS, if_pos h]
      exact ih
    · simp only [removeFS, if_neg h, keysOf, List.map_cons, List.mem_cons]
      rintro (hh | hh)
      · exact h hh.symm
      · exact ih hh

theorem nodupKeys_writeFS {fs : FS} (p : FPath) (f : DFile)
    (h : (keysOf fs).Nodup) : (keysOf (writeFS fs p f)).Nodup := by
  have hnd : (keysOf (removeFS fs p)).Nodup :=
    List.Nodup.sublist (keys_removeFS_sublist fs p) h
  show (p :: keysOf (removeFS fs p)).Nodup
  exact List.nodup_cons.2 ⟨not_mem_keys_removeFS fs p, hnd⟩

theorem lookupFS_mem {fs : FS} {p : FPath} {f : DFile} :
    lookupFS fs p = some f → (p, f) ∈ fs := by
  induction fs with
  | nil => intro h; cases h
  | cons e rest ih =>
    by_cases h : e.1 = p
    · simp only [lookupFS, if_pos h]
      intro hf
      have hfe : e.2 = f := Option.some.inj hf
      have hpe : (p, f) = e := by
        cases e with
        | mk a b =>
          simp only at h hfe
          rw [← h, ← hfe]
      rw [hpe]
      exact List.mem_cons_self e rest
    · simp only [lookupFS, if_neg h]
      intro hf
      exact List.mem_cons_of_mem e (ih hf)

theorem lookupFS_isSome_of_mem {fs : FS} {p : FPath} {f : DFile}
    (hf : (p, f) ∈ fs) : (lookupFS fs p).isSome = true := by
  induction fs with
  | nil => cases hf
  | cons e rest ih =>
    by_cases h : e.1 = p
    · simp [lookupFS, if_pos h]
    · rcases List.mem_cons.1 hf with he | hm
      · exact absurd (congrArg Prod.fst he).symm h
      · simp only [lookupFS, if_neg h]
        exact ih hm

theorem lookupFS_isSome_iff {fs : FS} {p : FPath} :
    (lookupFS fs p).isSome = true ↔ ∃ f, (p, f) ∈ fs := by
  constructor
  · intro h
    rcases Option.isSome_iff_exists.1 h with ⟨f, hf⟩
    exact ⟨f, lookupFS_mem hf⟩
  · rintro ⟨f, hf⟩
    exact lookupFS_isSome_of_mem hf

theorem lookupFS_eq_none {fs : FS} {p : FPath}
    (h : ∀ f, (p, f) ∉ fs) : lookupFS fs p = none := by
  cases hl : lookupFS fs p with
  | none => rfl
  | some f => exact absurd (lookupFS_mem hl) (h f)

theorem lookupFS_writeMany_of_notin (items : List (FPath × DFile)) (fs : FS) (q : FPath)
    (h : ∀ it ∈ items, it.1 ≠ q) :
    lookupFS (writeMany fs items) q = lookupFS fs q := by
  induction items generalizing fs with
  | nil => rfl
  | cons it rest ih =>
    have hit : it.1 ≠ q := h it (List.mem_cons_self it rest)
    have hrest : ∀ x ∈ rest, x.1 ≠ q := fun x hx => h x (List.mem_cons_of_mem it hx)
    show lookupFS (writeMany (writeFS fs it.1 it.2) rest) q = lookupFS fs q
    rw [ih (writeFS fs it.1 it.2) hrest, lookupFS_writeFS, if_neg hit]

theorem mem_writeMany {items : List (FPath × DFile)} {fs : FS} {e : FPath × DFile}
    (h : e ∈ writeMany fs items) : e ∈ items ∨ e ∈ fs := by
  induction items generalizing fs with
  | nil => exact Or.inr h
  | cons it rest ih =>
    have h' : e ∈ writeMany (writeFS fs it.1 it.2) rest := h
    rcases ih h' with hi | hf
    · exact Or.inl (List.mem_cons_of_mem it hi)
    · rcases List.mem_cons.1 hf with he | hm
      · left
        rw [he]
        exact List.mem_cons_self _ rest
      · exact Or.inr (mem_removeFS hm)

theorem nodupKeys_writeMany (items : List (FPath × DFile)) {fs : FS}
    (h : (keysOf fs).Nodup) : (keysOf (writeMany fs items)).Nodup := by
  induction items generalizing fs with
  | nil => exact h
  | cons it rest ih => exact ih (nodupKeys_writeFS it.1 it.2 h)

theorem lookupFS_writeMany_mem {items : List (FPath × DFile)} (fs : FS)
    {q : FPath} {f : DFile}
    (hnd : (items.map Prod.fst).Nodup) (hmem : (q, f) ∈ items) :
    lookupFS (writeMany fs items) q = some f := by
  induction items generalizing fs with
  | nil => cases hmem
  | cons it rest ih =>
    have hnd' : (rest.map Prod.fst).Nodup := (List.nodup_cons.1 hnd).2
    rcases List.mem_cons.1 hmem with he | hm
    · have hq : it.1 = q := (congrArg Prod.fst he).symm
      have hnotin : ∀ x ∈ rest, x.1 ≠ q := by
        intro x hx hxq
        have : it.1 ∈ rest.map Prod.fst := by
          rw [hq, ← hxq]
          exact List.mem_map_of_mem Prod.fst hx
        exact (List.nodup_cons.1 hnd).1 this
      show lookupFS (writeMany (writeFS fs it.1 it.2) rest) q = some f
      rw [lookupFS_writeMany_of_notin rest _ q hnotin, lookupFS_writeFS, if_pos hq]
      have : it.2 = f := congrArg Prod.snd he.symm
      rw [this]
    · exact ih (writeFS fs it.1 it.2) hnd' hm

/-- Last path component (`pathlib.Path.name`); empty string for the root. -/
def lastComp : FPath → String
  | [] => ""
  | [x] => x
  | _ :: x :: xs => lastComp (x :: xs)

theorem lastComp_append (a : FPath) {b : FPath} (hb : b ≠ []) :
    lastComp (a ++ b) = lastComp b := by
  induction a with
  | nil => rfl
  | cons x xs ih =>
    cases hxs : xs ++ b with
    | nil => exact absurd (List.append_eq_nil.1 hxs).2 hb
    | cons y ys =>
      show lastComp (x :: (xs ++ b)) = lastComp b
      rw [hxs]
      show lastComp (y :: ys) = lastComp b
      rw [← hxs, ih]

/-- Whether a file name ends in the compiled-class suffix, i.e. matches the
`rglob` pattern of `_remove_class_files`. -/
def endsWithDotClass (s : String) : Bool :=
  List.isSuffixOf ['.', 'c', 'l', 'a', 's', 's'] s.toList

/-- A path names a compiled-class artifact when its file name ends in the
class suffix. -/
def isClassPath (p : FPath) : Bool := endsWithDotClass (lastComp p)

theorem isClassPath_append (a : FPath) {b : FPath} (hb : b ≠ []) :
    isClassPath (a ++ b) = isClassPath b := by
  unfold isClassPath
  rw [lastComp_append a hb]

/-- Strictly-below-a-directory test: `dir` is a proper prefix of `p`.  This
is the set of paths that `directory.rglob` can yield. -/
def underDir : FPath → FPath → Bool
  | [], [] => false
  | [], _ :: _ => true
  | _ :: _, [] => false
  | d :: ds, x :: xs => d == x && underDir ds xs

theorem underDir_append (dir : FPath) {q : FPath} (hq : q ≠ []) :
    underDir dir (dir ++ q) = true := by
  induction dir with
  | nil =>
    cases q with
    | nil => exact absurd rfl hq
    | cons y ys => rfl
  | cons d ds ih =>
    show (d == d && underDir ds (ds ++ q)) = true
    rw [ih]
    simp

theorem underDir_exists {dir p : FPath} (h : underDir dir p = true) :
    ∃ q, q ≠ [] ∧ p = dir ++ q := by
  induction dir generalizing p with
  | nil =>
    cases p with
    | nil => cases h
    | cons x xs => exact ⟨x :: xs, by simp, rfl⟩
  | cons d ds ih =>
    cases p with
    | nil => cases h
    | cons x xs =>
      have h' : (d == x) = true ∧ underDir ds xs = true := by
        simpa [underDir] using h
      have hd : d = x := eq_of_beq h'.1
      rcases ih h'.2 with ⟨q, hq, hxs⟩
      exact ⟨q, hq, by rw [hd, hxs]; rfl⟩

theorem underDir_nil {p : FPath} (hp : p ≠ []) : underDir [] p = true := by
  cases p with
  | nil => exact absurd rfl hp
  | cons x xs => rfl

theorem bool_ne_true {b : Bool} (h : b = false) : ¬ b = true := by
  rw [h]
  exact Bool.false_ne_true

/-- Oracle for the OS-level failures that `_remove_class_files` tolerates:
whether `os.chmod` raises at a path, and whether `Path.unlink` raises at a
path even after the permissions were fixed. -/
structure RmEnv where
  chmodFails : FPath → Bool
  unlinkFails : FPath → Bool

/-- The environment in which no removal-related OS call fails. -/
def cleanEnv : RmEnv := ⟨fun _ => false, fun _ => false⟩

/-- Log line printed by `_remove_class_files` when a file cannot be
removed; the original prints `path.name` followed by the OS error. -/
def rmMsg (p : FPath) : String := "[!] Could not remove file: " ++ lastComp p

/-- Embedding of `CFRDecompiler._remove_class_files`: walk `rglob('*.class')`
below `dir`, and for each match run `os.chmod(path, stat.S_IWRITE)` (clearing
the read-only attribute) followed by `path.unlink()`; any exception is caught,
logged, and the traversal continues with the next match.  A chmod failure
leaves the file untouched (the unlink is never attempted); an unlink failure
leaves the file in place with its read-only attribute already cleared. -/
def removeClassFiles (env : RmEnv) (dir : FPath) : FS → FS × List String
  | [] => ([], [])
  | e :: rest =>
    if underDir dir e.1 && isClassPath e.1 then
      if env.chmodFails e.1 then
        (e :: (removeClassFiles env dir rest).1, rmMsg e.1 :: (removeClassFiles env dir rest).2)
      else if env.unlinkFails e.1 then
        ((e.1, { e.2 with readOnly := false }) :: (removeClassFiles env dir rest).1,
         rmMsg e.1 :: (removeClassFiles env dir rest).2)
      else removeClassFiles env dir rest
    else (e :: (removeClassFiles env dir rest).1, (removeClassFiles env dir rest).2)

theorem removeClassFiles_lookup_unmatched (env : RmEnv) (dir : FPath) (fs : FS) (p : FPath)
    (h : (underDir dir p && isClassPath p) = false) :
    lookupFS (removeClassFiles env dir fs).1 p = lookupFS fs p := by
  induction fs with
  | nil => rfl
  | cons e rest ih =>
    have hne : ∀ hcond : (underDir dir e.1 && isClassPath e.1) = true, ¬ e.1 = p := by
      intro hcond hh
      rw [hh, h] at hcond
      cases hcond
    cases hm : (underDir dir e.1 && isClassPath e.1) with
    | true =>
      cases hcf : env.chmodFails e.1 with
      | true =>
        simp only [removeClassFiles]
        rw [if_pos hm, if_pos hcf]
        show lookupFS (e :: (removeClassFiles env dir rest).1) p = lookupFS (e :: rest) p
        simp only [lookupFS, if_neg (hne hm), ih]
      | false =>
        cases huf : env.unlinkFails e.1 with
        | true =>
          simp only [removeClassFiles]
          rw [if_pos hm, if_neg (bool_ne_true hcf), if_pos huf]
          show lookupFS ((e.1, { e.2 with readOnly := false }) :: (removeClassFiles env dir rest).1) p
              = lookupFS (e :: rest) p
          simp only [lookupFS, if_neg (hne hm), ih]
        | false =>
          simp only [removeClassFiles]
          rw [if_pos hm, if_neg (bool_ne_true hcf), if_neg (bool_ne_true huf)]
          show lookupFS (removeClassFiles env dir rest).1 p = lookupFS (e :: rest) p
          simp only [lookupFS, if_neg (hne hm), ih]
    | false =>
      simp only [removeClassFiles]
      rw [if_neg (bool_ne_true hm)]
      show lookupFS (e :: (removeClassFiles env dir rest).1) p = lookupFS (e :: rest) p
      by_cases hep : e.1 = p
      · simp only [lookupFS, if_pos hep]
      · simp only [lookupFS, if_neg hep, ih]

theorem removeClassFiles_mem_unmatched {env : RmEnv} {dir : FPath} {fs : FS}
    {e : FPath × DFile} (hmem : e ∈ (removeClassFiles env dir fs).1)
    (hc : env.chmodFails e.1 = false) (hu : env.unlinkFails e.1 = false) :
    (underDir dir e.1 && isClassPath e.1) = false := by
  induction fs with
  | nil => cases hmem
  | cons a rest ih =>
    cases hm : (underDir dir a.1 && isClassPath a.1) with
    | true =>
      cases hcf : env.chmodFails a.1 with
      | true =>
        simp only [removeClassFiles] at hmem
        rw [if_pos hm, if_pos hcf] at hmem
        rcases List.mem_cons.1 hmem with he | hm2
        · rw [he] at hc
          rw [hc] at hcf
          cases hcf
        · exact ih hm2
      | false =>
        cases huf : env.unlinkFails a.1 with
        | true =>
          simp only [removeClassFiles] at hmem
          rw [if_pos hm, if_neg (bool_ne_true hcf), if_pos huf] at hmem
          rcases List.mem_cons.1 hmem with he | hm2
          · have : e.1 = a.1 := by rw [he]
            rw [this] at hu
            rw [hu] at huf
            cases huf
          · exact ih hm2
        | false =>
          simp only [removeClassFiles] at hmem
          rw [if_pos hm, if_neg (bool_ne_true hcf), if_neg (bool_ne_true huf)] at hmem
          exact ih hmem
    | false =>
      simp only [removeClassFiles] at hmem
      rw [if_neg (bool_ne_true hm)] at hmem
      rcases List.mem_cons.1 hmem with he | hm2
      · rw [he]
        exact hm
      · exact ih hm2

theorem removeClassFiles_lookup_matched (env : RmEnv) (dir : FPath) (fs : FS) (p : FPath)
    (hm : (underDir dir p && isClassPath p) = true)
    (hc : env.chmodFails p = false) (hu : env.unlinkFails p = false) :
    lookupFS (removeClassFiles env dir fs).1 p = none := by
  apply lookupFS_eq_none
  intro f hf
  have hun := removeClassFiles_mem_unmatched hf hc hu
  rw [hm] at hun
  cases hun

theorem removeClassFiles_keys_sublist (env : RmEnv) (dir : FPath) (fs : FS) :
    List.Sublist (keysOf (removeClassFiles env dir fs).1) (keysOf fs) := by
  induction fs with
  | nil => exact List.Sublist.refl _
  | cons a rest ih =>
    cases hm : (underDir dir a.1 && isClassPath a.1) with
    | true =>
      cases hcf : env.chmodFails a.1 with
      | true =>
        simp only [removeClassFiles]
        rw [if_pos hm, if_pos hcf]
        exact ih.cons₂ a.1
      | false =>
        cases huf : env.unlinkFails a.1 with
        | true =>
          simp only [removeClassFiles]
          rw [if_pos hm, if_neg (bool_ne_true hcf), if_pos huf]
          exact ih.cons₂ a.1
        | false =>
          simp only [removeClassFiles]
          rw [if_pos hm, if_neg (bool_ne_true hcf), if_neg (bool_ne_true huf)]
          exact ih.cons a.1
    | false =>
      simp only [removeClassFiles]
      rw [if_neg (bool_ne_true hm)]
      exact ih.cons₂ a.1

theorem removeClassFiles_chmodFail {env : RmEnv} {dir : FPath} {fs : FS}
    {p : FPath} {f : DFile} (hmem : (p, f) ∈ fs)
    (hm : (underDir dir p && isClassPath p) = true)
    (hcf : env.chmodFails p = true) :
    (p, f) ∈ (removeClassFiles env dir fs).1 ∧ rmMsg p ∈ (removeClassFiles env dir fs).2 := by
  induction fs with
  | nil => cases hmem
  | cons a rest ih =>
    rcases List.mem_cons.1 hmem with he | hm2
    · subst he
      simp only [removeClassFiles]
      rw [if_pos hm, if_pos hcf]
      exact ⟨List.mem_cons_self _ _, List.mem_cons_self _ _⟩
    · have hih := ih hm2
      cases hma : (underDir dir a.1 && isClassPath a.1) with
      | true =>
        cases hcfa : env.chmodFails a.1 with
        | true =>
          simp only [removeClassFiles]
          rw [if_pos hma, if_pos hcfa]
          exact ⟨List.mem_cons_of_mem a hih.1, List.mem_cons_of_mem _ hih.2⟩
        | false =>
          cases hufa : env.unlinkFails a.1 with
          | true =>
            simp only [removeClassFiles]
            rw [if_pos hma, if_neg (bool_ne_true hcfa), if_pos hufa]
            exact ⟨List.mem_cons_of_mem _ hih.1, List.mem_cons_of_mem _ hih.2⟩
          | false =>
            simp only [removeClassFiles]
            rw [if_pos hma, if_neg (bool_ne_true hcfa), if_neg (bool_ne_true hufa)]
            exact hih
      | false =>
        simp only [removeClassFiles]
        rw [if_neg (bool_ne_true hma)]
        exact ⟨List.mem_cons_of_mem a hih.1, hih.2⟩

theorem removeClassFiles_unlinkFail {env : RmEnv} {dir : FPath} {fs : FS}
    {p : FPath} {f : DFile} (hmem : (p, f) ∈ fs)
    (hm : (underDir dir p && isClassPath p) = true)
    (hcf : env.chmodFails p = false) (huf : env.unlinkFails p = true) :
    (p, { f with readOnly := false }) ∈ (removeClassFiles env dir fs).1 ∧
      rmMsg p ∈ (removeClassFiles env dir fs).2 := by
  induction fs with
  | nil => cases hmem
  | cons a rest ih =>
    rcases List.mem_cons.1 hmem with he | hm2
    · subst he
      simp only [removeClassFiles]
      rw [if_pos hm, if_neg (bool_ne_true hcf), if_pos huf]
      exact ⟨List.mem_cons_self _ _, List.mem_cons_self _ _⟩
    · have hih := ih hm2
      cases hma : (underDir dir a.1 && isClassPath a.1) with
      | true =>
        cases hcfa : env.chmodFails a.1 with
        | true =>
          simp only [removeClassFiles]
          rw [if_pos hma, if_pos hcfa]
          exact ⟨List.mem_cons_of_mem a hih.1, List.mem_cons_of_mem _ hih.2⟩
        | false =>
          cases hufa : env.unlinkFails a.1 with
          | true =>
            simp only [removeClassFiles]
            rw [if_pos hma, if_neg (bool_ne_true hcfa), if_pos hufa]
            exact ⟨List.mem_cons_of_mem _ hih.1, List.mem_cons_of_mem _ hih.2⟩
          | false =>
            simp only [removeClassFiles]
            rw [if_pos hma, if_neg (bool_ne_true hcfa), if_neg (bool_ne_true hufa)]
            exact hih
      | false =>
        simp only [removeClassFiles]
        rw [if_neg (bool_ne_true hma)]
        exact ⟨List.mem_cons_of_mem a hih.1, hih.2⟩

/-- Open a file's bytes as a zip archive (`zipfile.ZipFile(path, 'r')`):
structured zip content yields its entry list, anything else raises
`BadZipFile`. -/
def openZip : Content → Option (List ZEntry)
  | .zip es => some es
  | .raw _ => none

/-- The batch of file writes performed by `ZipFile.extractall(destDir)`:
every entry lands at `destDir ++ entry path`, carrying the entry's data and
its read-only attribute (CPython's `_extract_member` restores permission
bits from `external_attr`); the modification time is the time of
extraction. -/
def extractWrites (now : Nat) (destDir : FPath) (es : List ZEntry) :
    List (FPath × DFile) :=
  es.map (fun e => (destDir ++ e.1, ⟨e.2.1, e.2.2, now⟩))

/-- Raw extraction: open the archive stored at `jarPath` in `src` and unpack
every entry below `destDir` of `dest`; errors (missing file, corrupt
archive) are reported to the caller. -/
def extractAll (now : Nat) (src : FS) (jarPath : FPath) (dest : FS)
    (destDir : FPath) : Except String FS :=
  match lookupFS src jarPath with
  | none => .error "FileNotFoundError"
  | some jf =>
    match openZip jf.content with
    | none => .error "BadZipFile"
    | some es => .ok (writeMany dest (extractWrites now destDir es))

/-- Embedding of `CFRDecompiler._extract_jar_contents`: the whole
`extractall` call is wrapped in `try/except Exception`, so any failure is
logged as a warning and the call returns normally. -/
def extract_jar_contents (now : Nat) (src : FS) (jarPath : FPath) (dest : FS)
    (destDir : FPath) : FS × List String :=
  match extractAll now src jarPath dest destDir with
  | .ok fs => (fs, [])
  | .error e => (dest, ["[!] Extraction warning: " ++ e])

/-- Oracle describing one run of the external CFR process: its exit code,
the text captured on standard error, and the files it wrote below the
chosen `--outputdir` (relative path and data). -/
structure CFRResult where
  exitCode : Nat
  stderrTxt : String
  outputs : List (FPath × Content)

/-- The batch of file writes performed by the CFR process below `outDir`. -/
def cfrWrites (now : Nat) (outDir : FPath) (outs : List (FPath × Content)) :
    List (FPath × DFile) :=
  outs.map (fun o => (outDir ++ o.1, ⟨o.2, false, now⟩))

/-- Embedding of `CFRDecompiler._run_cfr`: run the external process (its
effect on `fs` below `outDir` is given by the oracle `res`), then
`subprocess.run(..., check=True)` raises `CalledProcessError` exactly when
the exit code is non-zero; the handler prints the captured stderr and
re-raises.  The second component is the raised error (carrying the stderr
text), the third the log output. -/
def run_cfr (now : Nat) (res : CFRResult) (fs : FS) (outDir : FPath) :
    FS × Option String × List String :=
  let fs' := writeMany fs (cfrWrites now outDir res.outputs)
  if res.exitCode = 0 then (fs', none, [])
  else (fs', some res.stderrTxt, ["[!] Decompilation error: " ++ res.stderrTxt])

/-- Result of running one mode pipeline: the outer filesystem afterwards,
the exception that aborted it (if any), and the log. -/
structure PipeResult where
  fs : FS
  err : Option String
  log : List String

/-- The zip file created by `mode_1_inplace`'s repackaging loop: one entry
per regular file of the pruned temporary tree, named by its path relative
to the tree root (`zipf.write(file_path, arcname)` also stores the file's
permission bits). -/
def zipTree (tmp : FS) : List ZEntry :=
  tmp.map (fun e => (e.1, e.2.content, e.2.readOnly))

/-- Embedding of `CFRDecompiler.mode_1_inplace`: extract the archive into a
fresh temporary tree, decompile into the same tree, prune class files, then
rewrite the archive path as a fresh zip of every remaining file.  A
decompilation error propagates before the archive is touched; the temporary
tree is dropped on every path. -/
def mode_1_inplace (now : Nat) (res : CFRResult) (env : RmEnv) (fs : FS)
    (jarPath : FPath) : PipeResult :=
  let ext := extract_jar_contents now fs jarPath [] []
  let run := run_cfr now res ext.1 []
  match run.2.1 with
  | some e => ⟨fs, some e, ext.2 ++ run.2.2⟩
  | none =>
    let rm := removeClassFiles env [] run.1
    ⟨writeFS fs jarPath ⟨Content.zip (zipTree rm.1), false, now⟩, none,
      ext.2 ++ run.2.2 ++ rm.2⟩

/-- Embedding of `CFRDecompiler.mode_2_to_folder`: create the output folder
(a no-op here), extract the archive into it, decompile into it, prune class
files from it.  A decompilation error propagates, leaving whatever is
already on disk. -/
def mode_2_to_folder (now : Nat) (res : CFRResult) (env : RmEnv) (fs : FS)
    (jarPath outDir : FPath) : PipeResult :=
  let ext := extract_jar_contents now fs jarPath fs outDir
  let run := run_cfr now res ext.1 outDir
  match run.2.1 with
  | some e => ⟨run.1, some e, ext.2 ++ run.2.2⟩
  | none =>
    let rm := removeClassFiles env outDir run.1
    ⟨rm.1, none, ext.2 ++ run.2.2 ++ rm.2⟩

/-- The fixed `build.gradle` text written by `mode_3_gradle_project`. -/
def build_gradle_content : String :=
  "plugins \x7b\n    id \x27java\x27\n\x7d\ngroup = \x27com.decompiled\x27\nversion = \x271.0-SNAPSHOT\x27\nrepositories \x7b\n    mavenCentral()\n\x7d\n"

/-- The copy loop of `mode_3_gradle_project`: `shutil.copy2` every file of
the pruned temporary tree to the same relative path below `resDir`,
preserving content, permission bits and modification time. -/
def copyTree (tmp : FS) (resDir : FPath) (fs : FS) : FS :=
  writeMany fs (tmp.map (fun e => (resDir ++ e.1, e.2)))

/-- Embedding of `CFRDecompiler.mode_3_gradle_project`: create the fixed
project layout, decompile straight into `src/main/java`, extract the
archive into a fresh temporary tree, prune class files there, copy every
remaining file into `src/main/resources` (metadata preserved), and write
the fixed `build.gradle` at the project root. -/
def mode_3_gradle_project (now : Nat) (res : CFRResult) (env : RmEnv) (fs : FS)
    (jarPath projDir : FPath) : PipeResult :=
  let javaDir := projDir ++ ["src", "main", "java"]
  let resDir := projDir ++ ["src", "main", "resources"]
  let run := run_cfr now res fs javaDir
  match run.2.1 with
  | some e => ⟨run.1, some e, run.2.2⟩
  | none =>
    let ext := extract_jar_contents now run.1 jarPath [] []
    let rm := removeClassFiles env [] ext.1
    let copied := copyTree rm.1 resDir run.1
    ⟨writeFS copied (projDir ++ ["build.gradle"]) ⟨Content.raw build_gradle_content, false, now⟩,
      none, run.2.2 ++ ext.2 ++ rm.2⟩

/-- Index of the last occurrence of a character in a list. -/
def lastIdxOf (c : Char) : List Char → Option Nat
  | [] => none
  | x :: xs =>
    match lastIdxOf c xs with
    | some k => some (k + 1)
    | none => if x = c then some 0 else none

/-- The stem of a file name (`pathlib.PurePath.stem`): the name without its
final suffix; a leading or trailing dot does not start a suffix. -/
def stemOfName (name : String) : String :=
  match lastIdxOf '.' name.toList with
  | none => name
  | some 0 => name
  | some k =>
    if k + 1 = name.toList.length then name
    else String.mk (name.toList.take k)

/-- The output-folder prompt of modes 2 and 3: an empty (stripped) answer
falls back to the archive stem plus a mode-specific ending. -/
def folderChoice (inp : String) (jarPath : FPath) (ending : String) : FPath :=
  if inp = "" then [stemOfName (lastComp jarPath) ++ ending] else [inp]

/-- One interactive session's external circumstances: whether the user hit
Ctrl-C, whether the CFR jar and the target archive exist, and the stripped
prompt answers. -/
structure Console where
  interrupted : Bool
  cfrExists : Bool
  jarExists : Bool
  jarPath : FPath
  modeInput : String
  folderInput : String

/-- How `interactive_mode` ends: a normal return (with the pipeline result
when one was dispatched, and whether the unknown-mode error was printed), a
`sys.exit`, or a `KeyboardInterrupt` propagating. -/
inductive RunEnd where
  | finished (pr : Option PipeResult) (unknownMsg : Bool)
  | sysExit (code : Nat)
  | kbInterrupt

/-- Embedding of `interactive_mode`: check the CFR jar and the target
archive (printing an error and calling `sys.exit(1)` when missing), then
dispatch on the mode answer; an unknown answer prints an error and returns
without running any pipeline.  A user interrupt is modelled as arriving
before any work. -/
def interactive_mode (now : Nat) (res : CFRResult) (env : RmEnv) (fs : FS)
    (c : Console) : RunEnd :=
  if c.interrupted then .kbInterrupt
  else if !c.cfrExists then .sysExit 1
  else if !c.jarExists then .sysExit 1
  else if c.modeInput = "1" then
    .finished (some (mode_1_inplace now res env fs c.jarPath)) false
  else if c.modeInput = "2" then
    .finished (some (mode_2_to_folder now res env fs c.jarPath
      (folderChoice c.folderInput c.jarPath "_extracted"))) false
  else if c.modeInput = "3" then
    .finished (some (mode_3_gradle_project now res env fs c.jarPath
      (folderChoice c.folderInput c.jarPath "_project"))) false
  else .finished none true

/-- Outcome of the whole process: exit status, final filesystem, whether a
pipeline ran, whether the unknown-mode error was printed, and the pipeline
exception (if one was raised and caught at top level). -/
structure MainResult where
  exitCode : Nat
  fs : FS
  ranPipeline : Bool
  unknownMsg : Bool
  pipeErr : Option String

/-- Folding a finished `interactive_mode` call into the process outcome:
with no pipeline dispatched the script returns normally (exit 0); a
dispatched pipeline that raised has its exception caught, printed and
turned into exit 1, otherwise the run exits 0. -/
def finishResult (fs : FS) (opr : Option PipeResult) (u : Bool) : MainResult :=
  match opr with
  | none => ⟨0, fs, false, u, none⟩
  | some pr => ⟨if pr.err.isSome then 1 else 0, pr.fs, true, u, pr.err⟩

/-- Embedding of the `__main__` block: `KeyboardInterrupt` exits 0,
`SystemExit` from the missing-file checks passes through, any other
exception is printed and exits 1, and a normal return exits 0. -/
def main_run (now : Nat) (res : CFRResult) (env : RmEnv) (fs : FS)
    (c : Console) : MainResult :=
  match interactive_mode now res env fs c with
  | .kbInterrupt => ⟨0, fs, false, false, none⟩
  | .sysExit n => ⟨n, fs, false, false, none⟩
  | .finished opr u => finishResult fs opr u

/-- The temporary tree of `mode_1_inplace` at repackaging time: archive
extracted, decompiler output written, class files pruned. -/
def inplaceTmp (now : Nat) (res : CFRResult) (env : RmEnv) (fs : FS)
    (jarPath : FPath) : FS :=
  (removeClassFiles env []
    (run_cfr now res (extract_jar_contents now fs jarPath [] []).1 []).1).1

/-- The temporary tree of `mode_3_gradle_project` at copy time: archive
extracted (after the decompiler ran), class files pruned. -/
def scaffoldTmp (now : Nat) (res : CFRResult) (env : RmEnv) (fs : FS)
    (jarPath projDir : FPath) : FS :=
  (removeClassFiles env []
    (extract_jar_contents now
      (run_cfr now res fs (projDir ++ ["src", "main", "java"])).1 jarPath [] []).1).1

theorem mode_1_inplace_ok (now : Nat) (res : CFRResult) (env : RmEnv) (fs : FS)
    (jarPath : FPath) (h : res.exitCode = 0) :
    (mode_1_inplace now res env fs jarPath).fs =
      writeFS fs jarPath
        ⟨Content.zip (zipTree (inplaceTmp now res env fs jarPath)), false, now⟩ ∧
    (mode_1_inplace now res env fs jarPath).err = none := by
  unfold mode_1_inplace inplaceTmp
  simp only [run_cfr, if_pos h]
  refine ⟨?_, ?_⟩ <;> first | rfl | trivial

theorem mode_1_inplace_err (now : Nat) (res : CFRResult) (env : RmEnv) (fs : FS)
    (jarPath : FPath) (h : ¬ res.exitCode = 0) :
    (mode_1_inplace now res env fs jarPath).fs = fs ∧
    (mode_1_inplace now res env fs jarPath).err = some res.stderrTxt := by
  unfold mode_1_inplace
  simp only [run_cfr, if_neg h]
  refine ⟨?_, ?_⟩ <;> first | rfl | trivial

theorem mode_2_to_folder_ok (now : Nat) (res : CFRResult) (env : RmEnv) (fs : FS)
    (jarPath outDir : FPath) (h : res.exitCode = 0) :
    (mode_2_to_folder now res env fs jarPath outDir).fs =
      (removeClassFiles env outDir
        (run_cfr now res (extract_jar_contents now fs jarPath fs outDir).1 outDir).1).1 ∧
    (mode_2_to_folder now res env fs jarPath outDir).err = none := by
  unfold mode_2_to_folder
  simp only [run_cfr, if_pos h]
  refine ⟨?_, ?_⟩ <;> first | rfl | trivial

theorem mode_2_to_folder_err (now : Nat) (res : CFRResult) (env : RmEnv) (fs : FS)
    (jarPath outDir : FPath) (h : ¬ res.exitCode = 0) :
    (mode_2_to_folder now res env fs jarPath outDir).fs =
      (run_cfr now res (extract_jar_contents now fs jarPath fs outDir).1 outDir).1 ∧
    (mode_2_to_folder now res env fs jarPath outDir).err = some res.stderrTxt := by
  unfold mode_2_to_folder
  simp only [run_cfr, if_neg h]
  refine ⟨?_, ?_⟩ <;> first | rfl | trivial

theorem mode_3_gradle_project_ok (now : Nat) (res : CFRResult) (env : RmEnv) (fs : FS)
    (jarPath projDir : FPath) (h : res.exitCode = 0) :
    (mode_3_gradle_project now res env fs jarPath projDir).fs =
      writeFS
        (copyTree (scaffoldTmp now res env fs jarPath projDir)
          (projDir ++ ["src", "main", "resources"])
          (run_cfr now res fs (projDir ++ ["src", "main", "java"])).1)
        (projDir ++ ["build.gradle"])
        ⟨Content.raw build_gradle_content, false, now⟩ ∧
    (mode_3_gradle_project now res env fs jarPath projDir).err = none := by
  unfold mode_3_gradle_project scaffoldTmp
  simp only [run_cfr, if_pos h]
  refine ⟨?_, ?_⟩ <;> first | rfl | trivial

theorem mode_3_gradle_project_err (now : Nat) (res : CFRResult) (env : RmEnv) (fs : FS)
    (jarPath projDir : FPath) (h : ¬ res.exitCode = 0) :
    (mode_3_gradle_project now res env fs jarPath projDir).fs =
      (run_cfr now res fs (projDir ++ ["src", "main", "java"])).1 ∧
    (mode_3_gradle_project now res env fs jarPath projDir).err = some res.stderrTxt := by
  unfold mode_3_gradle_project
  simp only [run_cfr, if_neg h]
  refine ⟨?_, ?_⟩ <;> first | rfl | trivial

theorem append_left_inj {a b c : FPath} (h : a ++ b = a ++ c) : b = c := by
  induction a with
  | nil => exact h
  | cons x xs ih =>
    injection h with h1 h2
    exact ih h2

theorem run_cfr_fs (now : Nat) (res : CFRResult) (fs : FS) (outDir : FPath) :
    (run_cfr now res fs outDir).1 = writeMany fs (cfrWrites now outDir res.outputs) := by
  unfold run_cfr
  by_cases h : res.exitCode = 0
  · rw [if_pos h]
  · rw [if_neg h]

theorem extractAll_ok_shape {now : Nat} {src : FS} {jarPath : FPath} {dest : FS}
    {destDir : FPath} {fs' : FS}
    (h : extractAll now src jarPath dest destDir = .ok fs') :
    ∃ es, fs' = writeMany dest (extractWrites now destDir es) := by
  unfold extractAll at h
  split at h
  · cases h
  · split at h
    · cases h
    · exact ⟨_, (Except.ok.inj h).symm⟩

theorem extract_jar_contents_lookup_outside (now : Nat) (src : FS) (jp : FPath)
    (dest : FS) (destDir : FPath) (q : FPath) (h : ∀ r, destDir ++ r ≠ q) :
    lookupFS (extract_jar_contents now src jp dest destDir).1 q = lookupFS dest q := by
  cases hx : extractAll now src jp dest destDir with
  | error e => simp only [extract_jar_contents, hx]
  | ok fs' =>
    simp only [extract_jar_contents, hx]
    rcases extractAll_ok_shape hx with ⟨es, rfl⟩
    refine lookupFS_writeMany_of_notin _ _ _ ?_
    intro it hit
    rcases List.mem_map.1 hit with ⟨e, _, rfl⟩
    exact h e.1

theorem run_cfr_lookup_outside (now : Nat) (res : CFRResult) (fs : FS)
    (outDir : FPath) (q : FPath) (h : ∀ r, outDir ++ r ≠ q) :
    lookupFS (run_cfr now res fs outDir).1 q = lookupFS fs q := by
  rw [run_cfr_fs]
  refine lookupFS_writeMany_of_notin _ _ _ ?_
  intro it hit
  rcases List.mem_map.1 hit with ⟨o, _, rfl⟩
  exact h o.1

theorem extract_jar_contents_nodupKeys (now : Nat) (src : FS) (jarPath destDir : FPath) :
    (keysOf (extract_jar_contents now src jarPath [] destDir).1).Nodup := by
  cases hx : extractAll now src jarPath [] destDir with
  | error e =>
    simp only [extract_jar_contents, hx]
    exact List.nodup_nil
  | ok fs' =>
    simp only [extract_jar_contents, hx]
    rcases extractAll_ok_shape hx with ⟨es, rfl⟩
    exact nodupKeys_writeMany _ List.nodup_nil

theorem scaffoldTmp_nodupKeys (now : Nat) (res : CFRResult) (env : RmEnv) (fs : FS)
    (jarPath projDir : FPath) :
    (keysOf (scaffoldTmp now res env fs jarPath projDir)).Nodup :=
  List.Nodup.sublist (removeClassFiles_keys_sublist _ _ _)
    (extract_jar_contents_nodupKeys _ _ _ _)

theorem tmp_entry_not_class {env : RmEnv} {fs : FS} {pe : FPath × DFile}
    (hc : ∀ p, env.chmodFails p = false) (hu : ∀ p, env.unlinkFails p = false)
    (hpe : pe ∈ (removeClassFiles env [] fs).1) : isClassPath pe.1 = false := by
  have hun := removeClassFiles_mem_unmatched hpe (hc pe.1) (hu pe.1)
  cases hp : pe.1 with
  | nil => rfl
  | cons x xs =>
    rw [hp] at hun
    exact hun

/-- C2: In Inplace mode, if the decompiler invocation raises (the external
process exits non-zero) the pipeline aborts before the repackaging step,
and the outer filesystem — in particular the original archive at the input
path — is exactly its pre-run state: `mode_1_inplace` only writes the
archive path after a successful decompilation, all earlier steps touch
only the temporary tree. -/
theorem inplace_cfr_failure_leaves_archive_untouched
    (now : Nat) (res : CFRResult) (env : RmEnv) (fs : FS) (jarPath : FPath)
    (h : res.exitCode ≠ 0) :
    (mode_1_inplace now res env fs jarPath).fs = fs ∧
    lookupFS (mode_1_inplace now res env fs jarPath).fs jarPath = lookupFS fs jarPath ∧
    (mode_1_inplace now res env fs jarPath).err = some res.stderrTxt := by
  have hm := mode_1_inplace_err now res env fs jarPath h
  exact ⟨hm.1, by rw [hm.1], hm.2⟩

/-- Witness for `inplace_cfr_failure_leaves_archive_untouched`: a concrete
failing decompiler run leaves the concrete archive unchanged. -/
theorem inplace_cfr_failure_leaves_archive_untouched_witness :
    (1 : Nat) ≠ 0 ∧
    (mode_1_inplace 5 ⟨1, "boom", []⟩ cleanEnv
        [(["app.jar"], ⟨Content.zip [(["A.class"], Content.raw "a", false)], false, 0⟩)]
        ["app.jar"]).fs =
      [(["app.jar"], ⟨Content.zip [(["A.class"], Content.raw "a", false)], false, 0⟩)] ∧
    (mode_1_inplace 5 ⟨1, "boom", []⟩ cleanEnv
        [(["app.jar"], ⟨Content.zip [(["A.class"], Content.raw "a", false)], false, 0⟩)]
        ["app.jar"]).err = some "boom" :=
  ⟨by decide,
   (inplace_cfr_failure_leaves_archive_untouched 5 ⟨1, "boom", []⟩ cleanEnv
      [(["app.jar"], ⟨Content.zip [(["A.class"], Content.raw "a", false)], false, 0⟩)]
      ["app.jar"] (by decide)).1,
   (inplace_cfr_failure_leaves_archive_untouched 5 ⟨1, "boom", []⟩ cleanEnv
      [(["app.jar"], ⟨Content.zip [(["A.class"], Content.raw "a", false)], false, 0⟩)]
      ["app.jar"] (by decide)).2.2⟩

/-- C3: `_run_cfr` raises exactly when the external process exits with
non-zero status; the raised error carries the captured stderr text, which
is also printed for diagnostics, and the abort propagates out of whichever
mode pipeline invoked it. -/
theorem run_cfr_raises_iff_nonzero_exit
    (now : Nat) (res : CFRResult) (env : RmEnv) (fs : FS)
    (outDir jarPath projDir : FPath) :
    ((run_cfr now res fs outDir).2.1 = some res.stderrTxt ↔ res.exitCode ≠ 0) ∧
    ((run_cfr now res fs outDir).2.1 = none ↔ res.exitCode = 0) ∧
    (res.exitCode ≠ 0 →
      ("[!] Decompilation error: " ++ res.stderrTxt) ∈ (run_cfr now res fs outDir).2.2 ∧
      (mode_1_inplace now res env fs jarPath).err = some res.stderrTxt ∧
      (mode_2_to_folder now res env fs jarPath outDir).err = some res.stderrTxt ∧
      (mode_3_gradle_project now res env fs jarPath projDir).err = some res.stderrTxt) := by
  by_cases h : res.exitCode = 0
  · refine ⟨?_, ?_, ?_⟩
    · simp [run_cfr, if_pos h, h]
    · simp [run_cfr, if_pos h, h]
    · intro hne
      exact absurd h hne
  · refine ⟨?_, ?_, ?_⟩
    · simp [run_cfr, if_neg h, h]
    · simp [run_cfr, if_neg h, h]
    · intro _
      refine ⟨?_, (mode_1_inplace_err now res env fs jarPath h).2,
        (mode_2_to_folder_err now res env fs jarPath outDir h).2,
        (mode_3_gradle_project_err now res env fs jarPath projDir h).2⟩
      simp [run_cfr, if_neg h]

/-- Witness for `run_cfr_raises_iff_nonzero_exit`: a concrete non-zero
exit raises with the captured stderr and aborts a concrete Export run. -/
theorem run_cfr_raises_iff_nonzero_exit_witness :
    (run_cfr 0 ⟨1, "stack trace", []⟩ [] ["out"]).2.1 = some "stack trace" ∧
    (mode_2_to_folder 0 ⟨1, "stack trace", []⟩ cleanEnv [] ["a.jar"] ["out"]).err =
      some "stack trace" :=
  ⟨(run_cfr_raises_iff_nonzero_exit 0 ⟨1, "stack trace", []⟩ cleanEnv [] ["out"]
      ["a.jar"] ["p"]).1.2 (by decide),
   ((run_cfr_raises_iff_nonzero_exit 0 ⟨1, "stack trace", []⟩ cleanEnv [] ["out"]
      ["a.jar"] ["p"]).2.2 (by decide)).2.2.1⟩

/-- C7: `_extract_jar_contents` wraps the whole extraction in
`try/except Exception`: on any failure (missing or corrupt archive) it
logs a warning and returns normally with the destination untouched, and on
success it returns the extracted tree with no warning; the call never
propagates an error (its result type has no failure component).  The
embedding models whole-archive failures; a partially-readable archive is
treated as the success case for whatever was recoverable. -/
theorem extract_jar_contents_never_raises
    (now : Nat) (src : FS) (jarPath : FPath) (dest : FS) (destDir : FPath) :
    (∀ e, extractAll now src jarPath dest destDir = .error e →
      extract_jar_contents now src jarPath dest destDir =
        (dest, ["[!] Extraction warning: " ++ e])) ∧
    (∀ fs', extractAll now src jarPath dest destDir = .ok fs' →
      extract_jar_contents now src jarPath dest destDir = (fs', [])) := by
  constructor
  · intro e he
    unfold extract_jar_contents
    rw [he]
  · intro fs' hok
    unfold extract_jar_contents
    rw [hok]

/-- Witness for `extract_jar_contents_never_raises`: extracting a corrupt
(non-zip) archive warns and leaves the destination untouched. -/
theorem extract_jar_contents_never_raises_witness :
    extractAll 0 [(["bad.jar"], ⟨Content.raw "garbage", false, 0⟩)] ["bad.jar"] [] []
      = Except.error "BadZipFile" ∧
    extract_jar_contents 0 [(["bad.jar"], ⟨Content.raw "garbage", false, 0⟩)]
      ["bad.jar"] [] [] = ([], ["[!] Extraction warning: BadZipFile"]) :=
  ⟨rfl,
   (extract_jar_contents_never_raises 0
      [(["bad.jar"], ⟨Content.raw "garbage", false, 0⟩)] ["bad.jar"] [] []).1
      "BadZipFile" rfl⟩

/-- C10: `_remove_class_files` only ever deletes files whose name matches
`*.class` below the directory it is given: the lookup of every
non-matching path is completely unchanged (content, attributes and
timestamp), and a path whose file disappeared was necessarily a
`*.class`-named file below that directory.  As it only calls `unlink` on
glob matches, the rest of the tree and the directory structure stay in
place. -/
theorem remove_class_files_frame (env : RmEnv) (dir : FPath) (fs : FS) :
    (∀ p, (underDir dir p && isClassPath p) = false →
      lookupFS (removeClassFiles env dir fs).1 p = lookupFS fs p) ∧
    (∀ p, lookupFS fs p ≠ none →
      lookupFS (removeClassFiles env dir fs).1 p = none →
      underDir dir p = true ∧ isClassPath p = true) := by
  constructor
  · intro p h
    exact removeClassFiles_lookup_unmatched env dir fs p h
  · intro p hsome hnone
    cases hm : (underDir dir p && isClassPath p) with
    | false =>
      rw [removeClassFiles_lookup_unmatched env dir fs p hm] at hnone
      exact absurd hnone hsome
    | true =>
      simpa using hm

/-- Witness for `remove_class_files_frame`: in a concrete tree the
non-class file survives the cleaner byte-for-byte. -/
theorem remove_class_files_frame_witness :
    (underDir ["d"] ["d", "keep.txt"] && isClassPath ["d", "keep.txt"]) = false ∧
    lookupFS (removeClassFiles cleanEnv ["d"]
        [(["d", "keep.txt"], ⟨Content.raw "k", false, 0⟩),
         (["d", "a.class"], ⟨Content.raw "b", false, 0⟩)]).1 ["d", "keep.txt"] =
      lookupFS [(["d", "keep.txt"], ⟨Content.raw "k", false, 0⟩),
         (["d", "a.class"], ⟨Content.raw "b", false, 0⟩)] ["d", "keep.txt"] :=
  ⟨by decide,
   (remove_class_files_frame cleanEnv ["d"]
      [(["d", "keep.txt"], ⟨Content.raw "k", false, 0⟩),
       (["d", "a.class"], ⟨Content.raw "b", false, 0⟩)]).1
      ["d", "keep.txt"] (by decide)⟩

/-- C6: permission handling and per-file independence of
`_remove_class_files`.  For a matched file: (a) when neither OS call
fails, the file is removed even if it was read-only — the read-only
attribute is cleared (`os.chmod(..., S_IWRITE)`) before the `unlink`, so
an attribute that would deny deletion does not prevent removal; (b) a
chmod failure is caught, logged, and leaves the file exactly as it was;
(c) an unlink failure after a successful chmod is caught and logged, and
the surviving file shows its read-only attribute already cleared —
evidence that the clearing happens before the removal attempt; (d)
failures are per-file: every matched file whose own OS calls succeed is
removed regardless of failures elsewhere, and the traversal always runs
to completion (the embedding is a total function). -/
theorem remove_class_files_permission_handling
    (env : RmEnv) (dir : FPath) (fs : FS) (p : FPath) (f : DFile)
    (hmem : (p, f) ∈ fs) (hm : (underDir dir p && isClassPath p) = true) :
    (f.readOnly = true → env.chmodFails p = false → env.unlinkFails p = false →
      lookupFS (removeClassFiles env dir fs).1 p = none) ∧
    (env.chmodFails p = true →
      (p, f) ∈ (removeClassFiles env dir fs).1 ∧
      rmMsg p ∈ (removeClassFiles env dir fs).2) ∧
    (env.chmodFails p = false → env.unlinkFails p = true →
      (p, { f with readOnly := false }) ∈ (removeClassFiles env dir fs).1 ∧
      rmMsg p ∈ (removeClassFiles env dir fs).2) ∧
    (∀ q, (underDir dir q && isClassPath q) = true →
      env.chmodFails q = false → env.unlinkFails q = false →
      lookupFS (removeClassFiles env dir fs).1 q = none) := by
  refine ⟨?_, ?_, ?_, ?_⟩
  · intro _ hc hu
    exact removeClassFiles_lookup_matched env dir fs p hm hc hu
  · intro hcf
    exact removeClassFiles_chmodFail hmem hm hcf
  · intro hcf huf
    exact removeClassFiles_unlinkFail hmem hm hcf huf
  · intro q hq hc hu
    exact removeClassFiles_lookup_matched env dir fs q hq hc hu

/-- Witness for `remove_class_files_permission_handling`: with an
environment where unlink fails only on `d/b.class`, the read-only
`d/a.class` is still removed, while `d/b.class` survives with its
read-only attribute cleared and a log line, proving the traversal
continued past the failure. -/
theorem remove_class_files_permission_handling_witness :
    lookupFS (removeClassFiles ⟨fun _ => false, fun q => q == ["d", "b.class"]⟩ ["d"]
        [(["d", "a.class"], ⟨Content.raw "a", true, 0⟩),
         (["d", "b.class"], ⟨Content.raw "b", true, 0⟩)]).1 ["d", "a.class"] = none ∧
    (["d", "b.class"], (⟨Content.raw "b", false, 0⟩ : DFile)) ∈
      (removeClassFiles ⟨fun _ => false, fun q => q == ["d", "b.class"]⟩ ["d"]
        [(["d", "a.class"], ⟨Content.raw "a", true, 0⟩),
         (["d", "b.class"], ⟨Content.raw "b", true, 0⟩)]).1 ∧
    rmMsg ["d", "b.class"] ∈
      (removeClassFiles ⟨fun _ => false, fun q => q == ["d", "b.class"]⟩ ["d"]
        [(["d", "a.class"], ⟨Content.raw "a", true, 0⟩),
         (["d", "b.class"], ⟨Content.raw "b", true, 0⟩)]).2 :=
  ⟨(remove_class_files_permission_handling
      ⟨fun _ => false, fun q => q == ["d", "b.class"]⟩ ["d"]
      [(["d", "a.class"], ⟨Content.raw "a", true, 0⟩),
       (["d", "b.class"], ⟨Content.raw "b", true, 0⟩)]
      ["d", "a.class"] ⟨Content.raw "a", true, 0⟩
      (List.mem_cons_self _ _) (by decide)).1 rfl rfl (by decide),
   (remove_class_files_permission_handling
      ⟨fun _ => false, fun q => q == ["d", "b.class"]⟩ ["d"]
      [(["d", "a.class"], ⟨Content.raw "a", true, 0⟩),
       (["d", "b.class"], ⟨Content.raw "b", true, 0⟩)]
      ["d", "b.class"] ⟨Content.raw "b", true, 0⟩
      (List.mem_cons_of_mem _ (List.mem_cons_self _ _)) (by decide)).2.2.1 rfl
      (by decide) |>.1,
   (remove_class_files_permission_handling
      ⟨fun _ => false, fun q => q == ["d", "b.class"]⟩ ["d"]
      [(["d", "a.class"], ⟨Content.raw "a", true, 0⟩),
       (["d", "b.class"], ⟨Content.raw "b", true, 0⟩)]
      ["d", "b.class"] ⟨Content.raw "b", true, 0⟩
      (List.mem_cons_of_mem _ (List.mem_cons_self _ _)) (by decide)).2.2.1 rfl
      (by decide) |>.2⟩

/-- C4: on a successful Inplace run the archive path holds a freshly
created compressed file whose entry set is exactly the set of regular
files remaining in the pruned temporary tree, each entry named by the
file's path relative to the tree root and carrying that file's bytes and
permission bits. -/
theorem inplace_repackage_entries
    (now : Nat) (res : CFRResult) (env : RmEnv) (fs : FS) (jarPath : FPath)
    (h : res.exitCode = 0) :
    lookupFS (mode_1_inplace now res env fs jarPath).fs jarPath =
      some ⟨Content.zip (zipTree (inplaceTmp now res env fs jarPath)), false, now⟩ ∧
    (∀ q, (∃ e ∈ zipTree (inplaceTmp now res env fs jarPath), e.1 = q) ↔
      (lookupFS (inplaceTmp now res env fs jarPath) q).isSome = true) ∧
    (∀ e ∈ zipTree (inplaceTmp now res env fs jarPath),
      ∃ df : DFile, (e.1, df) ∈ inplaceTmp now res env fs jarPath ∧
        df.content = e.2.1 ∧ df.readOnly = e.2.2) ∧
    (∀ pe ∈ inplaceTmp now res env fs jarPath,
      (pe.1, pe.2.content, pe.2.readOnly) ∈ zipTree (inplaceTmp now res env fs jarPath)) := by
  refine ⟨?_, ?_, ?_, ?_⟩
  · rw [(mode_1_inplace_ok now res env fs jarPath h).1, lookupFS_writeFS, if_pos rfl]
  · intro q
    constructor
    · rintro ⟨e, he, heq⟩
      simp only [zipTree] at he
      rcases List.mem_map.1 he with ⟨pe, hpe, hfe⟩
      have h1 : pe.1 = q := by rw [← heq, ← hfe]
      rw [← h1]
      exact lookupFS_isSome_of_mem (show (pe.1, pe.2) ∈ _ from hpe)
    · intro hq
      rcases lookupFS_isSome_iff.1 hq with ⟨f, hf⟩
      exact ⟨(q, f.content, f.readOnly), List.mem_map_of_mem _ hf, rfl⟩
  · intro e he
    simp only [zipTree] at he
    rcases List.mem_map.1 he with ⟨pe, hpe, hfe⟩
    rw [← hfe]
    exact ⟨pe.2, hpe, rfl, rfl⟩
  · intro pe hpe
    exact List.mem_map_of_mem _ hpe

/-- Witness for `inplace_repackage_entries`: a concrete archive with one
class entry and one resource, plus one decompiler-written source, is
repackaged as exactly the pruned temporary tree (source and resource, no
class file). -/
theorem inplace_repackage_entries_witness :
    (0 : Nat) = 0 ∧
    lookupFS (mode_1_inplace 7 ⟨0, "", [(["x.java"], Content.raw "j")]⟩ cleanEnv
        [(["a.jar"], ⟨Content.zip [(["x.class"], Content.raw "c", false),
                                    (["r.txt"], Content.raw "t", false)], false, 0⟩)]
        ["a.jar"]).fs ["a.jar"] =
      some ⟨Content.zip [(["x.java"], Content.raw "j", false),
                         (["r.txt"], Content.raw "t", false)], false, 7⟩ :=
  ⟨rfl,
   (inplace_repackage_entries 7 ⟨0, "", [(["x.java"], Content.raw "j")]⟩ cleanEnv
      [(["a.jar"], ⟨Content.zip [(["x.class"], Content.raw "c", false),
                                  (["r.txt"], Content.raw "t", false)], false, 0⟩)]
      ["a.jar"] rfl).1⟩

/-- C5: on a successful ProjectScaffold run, every file remaining in the
pruned temporary tree is present below `src/main/resources` at the same
relative path with identical content, permission bits and modification
time (`shutil.copy2` preserves metadata), and `build.gradle` exists at the
project root holding the fixed constant text, independent of the archive,
the decompiler output and the rest of the filesystem. -/
theorem scaffold_copies_resources_and_fixed_manifest
    (now : Nat) (res : CFRResult) (env : RmEnv) (fs : FS) (jarPath projDir : FPath)
    (h : res.exitCode = 0) :
    (∀ pe ∈ scaffoldTmp now res env fs jarPath projDir,
      lookupFS (mode_3_gradle_project now res env fs jarPath projDir).fs
        (projDir ++ ["src", "main", "resources"] ++ pe.1) = some pe.2) ∧
    lookupFS (mode_3_gradle_project now res env fs jarPath projDir).fs
      (projDir ++ ["build.gradle"]) =
      some ⟨Content.raw build_gradle_content, false, now⟩ := by
  have hfs := (mode_3_gradle_project_ok now res env fs jarPath projDir h).1
  constructor
  · intro pe hpe
    rw [hfs, lookupFS_writeFS]
    have hne : ¬ (projDir ++ ["build.gradle"] =
        projDir ++ ["src", "main", "resources"] ++ pe.1) := by
      rw [List.append_assoc]
      intro hcon
      have h2 := append_left_inj hcon
      injection h2 with hh _
      exact absurd hh (by decide)
    rw [if_neg hne]
    unfold copyTree
    refine lookupFS_writeMany_mem _ ?_ ?_
    · rw [List.map_map]
      have h1 : (List.map
          (fun q : FPath => projDir ++ ["src", "main", "resources"] ++ q)
          (keysOf (scaffoldTmp now res env fs jarPath projDir))).Nodup :=
        List.Nodup.map (fun a b hab => append_left_inj hab)
          (scaffoldTmp_nodupKeys now res env fs jarPath projDir)
      rw [keysOf, List.map_map] at h1
      exact h1
    · exact List.mem_map_of_mem _ hpe
  · rw [hfs, lookupFS_writeFS, if_pos rfl]

/-- Witness for `scaffold_copies_resources_and_fixed_manifest`: in a
concrete run the single resource of the archive lands in
`src/main/resources` with its extraction timestamp preserved by the copy,
and the fixed manifest is at the project root. -/
theorem scaffold_copies_resources_and_fixed_manifest_witness :
    lookupFS (mode_3_gradle_project 9 ⟨0, "", []⟩ cleanEnv
        [(["a.jar"], ⟨Content.zip [(["r.txt"], Content.raw "t", false)], false, 3⟩)]
        ["a.jar"] ["p"]).fs ["p", "src", "main", "resources", "r.txt"] =
      some ⟨Content.raw "t", false, 9⟩ ∧
    lookupFS (mode_3_gradle_project 9 ⟨0, "", []⟩ cleanEnv
        [(["a.jar"], ⟨Content.zip [(["r.txt"], Content.raw "t", false)], false, 3⟩)]
        ["a.jar"] ["p"]).fs ["p", "build.gradle"] =
      some ⟨Content.raw build_gradle_content, false, 9⟩ :=
  ⟨(scaffold_copies_resources_and_fixed_manifest 9 ⟨0, "", []⟩ cleanEnv
      [(["a.jar"], ⟨Content.zip [(["r.txt"], Content.raw "t", false)], false, 3⟩)]
      ["a.jar"] ["p"] rfl).1 (["r.txt"], ⟨Content.raw "t", false, 9⟩)
      (by exact List.mem_cons_self _ _),
   (scaffold_copies_resources_and_fixed_manifest 9 ⟨0, "", []⟩ cleanEnv
      [(["a.jar"], ⟨Content.zip [(["r.txt"], Content.raw "t", false)], false, 3⟩)]
      ["a.jar"] ["p"] rfl).2⟩

theorem finishResult_exit (fs : FS) (pr : PipeResult) (u : Bool) :
    ((finishResult fs (some pr) u).pipeErr = none →
      (finishResult fs (some pr) u).exitCode = 0) ∧
    (∀ e, (finishResult fs (some pr) u).pipeErr = some e →
      (finishResult fs (some pr) u).exitCode = 1) := by
  constructor
  · intro hn
    have hn' : pr.err = none := hn
    show (if pr.err.isSome then 1 else 0) = 0
    rw [hn']
    rfl
  · intro e he
    have he' : pr.err = some e := he
    show (if pr.err.isSome then 1 else 0) = 1
    rw [he']
    rfl

/-- C8: the interactive entry point exits with status 0 on normal
completion or a user interrupt; with status 1 when the CFR jar or the
target archive is missing (in which case nothing ran and the filesystem is
untouched) or when a dispatched pipeline raised; and an unknown mode
selection prints an error and exits 0 without running any pipeline. -/
theorem interactive_exit_codes (now : Nat) (res : CFRResult) (env : RmEnv)
    (fs : FS) (c : Console) :
    (c.interrupted = true → (main_run now res env fs c).exitCode = 0) ∧
    (c.interrupted = false → (c.cfrExists = false ∨ c.jarExists = false) →
      (main_run now res env fs c).exitCode = 1 ∧
      (main_run now res env fs c).ranPipeline = false ∧
      (main_run now res env fs c).fs = fs) ∧
    (c.interrupted = false → c.cfrExists = true → c.jarExists = true →
      ((main_run now res env fs c).pipeErr = none →
        (main_run now res env fs c).exitCode = 0) ∧
      (∀ e, (main_run now res env fs c).pipeErr = some e →
        (main_run now res env fs c).exitCode = 1)) ∧
    (c.interrupted = false → c.cfrExists = true → c.jarExists = true →
      c.modeInput ≠ "1" → c.modeInput ≠ "2" → c.modeInput ≠ "3" →
      (main_run now res env fs c).exitCode = 0 ∧
      (main_run now res env fs c).unknownMsg = true ∧
      (main_run now res env fs c).ranPipeline = false ∧
      (main_run now res env fs c).fs = fs) := by
  obtain ⟨ci, ce, je, jp, mi, fi⟩ := c
  refine ⟨?_, ?_, ?_, ?_⟩
  · intro hi
    subst hi
    rfl
  · intro hi hor
    subst hi
    rcases hor with hce | hje
    · subst hce
      exact ⟨rfl, rfl, rfl⟩
    · subst hje
      cases ce
      · exact ⟨rfl, rfl, rfl⟩
      · exact ⟨rfl, rfl, rfl⟩
  · intro hi hce hje
    subst hi
    subst hce
    subst hje
    by_cases h1 : mi = "1"
    · subst h1
      exact finishResult_exit fs (mode_1_inplace now res env fs jp) false
    · by_cases h2 : mi = "2"
      · subst h2
        exact finishResult_exit fs
          (mode_2_to_folder now res env fs jp (folderChoice fi jp "_extracted")) false
      · by_cases h3 : mi = "3"
        · subst h3
          exact finishResult_exit fs
            (mode_3_gradle_project now res env fs jp (folderChoice fi jp "_project")) false
        · have him : interactive_mode now res env fs ⟨false, true, true, jp, mi, fi⟩ =
              RunEnd.finished none true := by
            show (if mi = "1" then
                RunEnd.finished (some (mode_1_inplace now res env fs jp)) false
              else if mi = "2" then RunEnd.finished
                (some (mode_2_to_folder now res env fs jp (folderChoice fi jp "_extracted"))) false
              else if mi = "3" then RunEnd.finished
                (some (mode_3_gradle_project now res env fs jp (folderChoice fi jp "_project"))) false
              else RunEnd.finished none true) = RunEnd.finished none true
            rw [if_neg h1, if_neg h2, if_neg h3]
          have hmr : main_run now res env fs ⟨false, true, true, jp, mi, fi⟩ =
              ⟨0, fs, false, true, none⟩ := by
            unfold main_run
            rw [him]
            rfl
          constructor
          · intro _
            rw [hmr]
          · intro e he
            rw [hmr] at he
            exact Option.noConfusion he
  · intro hi hce hje h1 h2 h3
    subst hi
    subst hce
    subst hje
    have him : interactive_mode now res env fs ⟨false, true, true, jp, mi, fi⟩ =
        RunEnd.finished none true := by
      show (if mi = "1" then
          RunEnd.finished (some (mode_1_inplace now res env fs jp)) false
        else if mi = "2" then RunEnd.finished
          (some (mode_2_to_folder now res env fs jp (folderChoice fi jp "_extracted"))) false
        else if mi = "3" then RunEnd.finished
          (some (mode_3_gradle_project now res env fs jp (folderChoice fi jp "_project"))) false
        else RunEnd.finished none true) = RunEnd.finished none true
      rw [if_neg h1, if_neg h2, if_neg h3]
    have hmr : main_run now res env fs ⟨false, true, true, jp, mi, fi⟩ =
        ⟨0, fs, false, true, none⟩ := by
      unfold main_run
      rw [him]
      rfl
    rw [hmr]
    exact ⟨rfl, rfl, rfl, rfl⟩

/-- Witness for `interactive_exit_codes`: a concrete session with both
files present and an unknown mode answer exits 0 with the error printed,
no pipeline run, and the filesystem untouched. -/
theorem interactive_exit_codes_witness :
    (main_run 0 ⟨0, "", []⟩ cleanEnv [] ⟨false, true, true, ["a.jar"], "9", ""⟩).exitCode = 0 ∧
    (main_run 0 ⟨0, "", []⟩ cleanEnv [] ⟨false, true, true, ["a.jar"], "9", ""⟩).unknownMsg = true ∧
    (main_run 0 ⟨0, "", []⟩ cleanEnv [] ⟨false, true, true, ["a.jar"], "9", ""⟩).ranPipeline = false ∧
    (main_run 0 ⟨0, "", []⟩ cleanEnv [] ⟨false, true, true, ["a.jar"], "9", ""⟩).fs = [] :=
  (interactive_exit_codes 0 ⟨0, "", []⟩ cleanEnv []
    ⟨false, true, true, ["a.jar"], "9", ""⟩).2.2.2 rfl rfl rfl
    (by decide) (by decide) (by decide)

/-- The concrete filesystem of the C9 counterexample: the archive lives
inside the project's future `src/main/resources` folder and contains an
entry whose relative path coincides with the archive's own file name. -/
def c9fs : FS :=
  [(["p", "src", "main", "resources", "a.jar"],
    ⟨Content.zip [(["a.jar"], Content.raw "x", false)], false, 0⟩)]

/-- C9 counterexample: nothing in the code guards against the archive
lying below the output location.  With the archive inside the project's
`src/main/resources` and containing an entry whose relative path matches
its own location, a fully successful ProjectScaffold run overwrites the
archive during the resource-copy step — its timestamp changes and its
bytes become the entry's data — so "the input archive file is never
modified by the Export or ProjectScaffold pipelines" is false as stated. -/
theorem export_scaffold_never_modify_archive_counterexample :
    (mode_3_gradle_project 1 ⟨0, "", []⟩ cleanEnv c9fs
      ["p", "src", "main", "resources", "a.jar"] ["p"]).err = none ∧
    (lookupFS (mode_3_gradle_project 1 ⟨0, "", []⟩ cleanEnv c9fs
        ["p", "src", "main", "resources", "a.jar"] ["p"]).fs
      ["p", "src", "main", "resources", "a.jar"]).map DFile.mtime ≠
      (lookupFS c9fs ["p", "src", "main", "resources", "a.jar"]).map DFile.mtime ∧
    (lookupFS (mode_3_gradle_project 1 ⟨0, "", []⟩ cleanEnv c9fs
        ["p", "src", "main", "resources", "a.jar"] ["p"]).fs
      ["p", "src", "main", "resources", "a.jar"]).map DFile.content =
      some (Content.raw "x") :=
  ⟨by decide, by decide, rfl⟩

/-- C9 (amended): Export and ProjectScaffold leave the archive file
untouched provided the archive path does not lie at or below the
destination folder (mode 2) or the project root (mode 3): every write
those pipelines perform — extraction, decompiler output, resource copy,
manifest — lands below those directories, and the cleaner in mode 2 only
removes files below the destination.  (When the archive does lie below
the destination, a colliding relative path can overwrite it — see the
counterexample.)  This holds on both the success and the failure path. -/
theorem export_scaffold_preserve_archive_outside_destination
    (now : Nat) (res : CFRResult) (env : RmEnv) (fs : FS)
    (jarPath outDir projDir : FPath)
    (h2 : ∀ q, outDir ++ q ≠ jarPath) (h3 : ∀ q, projDir ++ q ≠ jarPath) :
    lookupFS (mode_2_to_folder now res env fs jarPath outDir).fs jarPath =
      lookupFS fs jarPath ∧
    lookupFS (mode_3_gradle_project now res env fs jarPath projDir).fs jarPath =
      lookupFS fs jarPath := by
  have hud2 : underDir outDir jarPath = false := by
    cases hu : underDir outDir jarPath with
    | false => rfl
    | true =>
      rcases underDir_exists hu with ⟨q, _, hjp⟩
      exact absurd hjp.symm (h2 q)
  constructor
  · by_cases hok : res.exitCode = 0
    · rw [(mode_2_to_folder_ok now res env fs jarPath outDir hok).1]
      rw [removeClassFiles_lookup_unmatched _ _ _ _ (by rw [hud2]; exact Bool.false_and _)]
      rw [run_cfr_lookup_outside _ _ _ _ _ h2]
      exact extract_jar_contents_lookup_outside now fs jarPath fs outDir jarPath h2
    · rw [(mode_2_to_folder_err now res env fs jarPath outDir hok).1]
      rw [run_cfr_lookup_outside _ _ _ _ _ h2]
      exact extract_jar_contents_lookup_outside now fs jarPath fs outDir jarPath h2
  · have hja : ∀ r, (projDir ++ ["src", "main", "java"]) ++ r ≠ jarPath := by
      intro r
      rw [List.append_assoc]
      exact h3 _
    by_cases hok : res.exitCode = 0
    · rw [(mode_3_gradle_project_ok now res env fs jarPath projDir hok).1]
      rw [lookupFS_writeFS, if_neg (h3 ["build.gradle"])]
      unfold copyTree
      have hcp : ∀ it ∈ (scaffoldTmp now res env fs jarPath projDir).map
          (fun e => (projDir ++ ["src", "main", "resources"] ++ e.1, e.2)),
          it.1 ≠ jarPath := by
        intro it hit
        rcases List.mem_map.1 hit with ⟨e, _, rfl⟩
        show projDir ++ ["src", "main", "resources"] ++ e.1 ≠ jarPath
        rw [List.append_assoc]
        exact h3 _
      rw [lookupFS_writeMany_of_notin _ _ _ hcp]
      exact run_cfr_lookup_outside _ _ _ _ _ hja
    · rw [(mode_3_gradle_project_err now res env fs jarPath projDir hok).1]
      exact run_cfr_lookup_outside _ _ _ _ _ hja

/-- Witness for `export_scaffold_preserve_archive_outside_destination`:
with the archive outside the destination directories, both pipelines leave
it byte-identical. -/
theorem export_scaffold_preserve_archive_outside_destination_witness :
    lookupFS (mode_2_to_folder 1 ⟨0, "", []⟩ cleanEnv
        [(["a.jar"], ⟨Content.zip [(["a.jar"], Content.raw "x", false)], false, 0⟩)]
        ["a.jar"] ["out"]).fs ["a.jar"] =
      lookupFS [(["a.jar"],
        ⟨Content.zip [(["a.jar"], Content.raw "x", false)], false, 0⟩)] ["a.jar"] ∧
    lookupFS (mode_3_gradle_project 1 ⟨0, "", []⟩ cleanEnv
        [(["a.jar"], ⟨Content.zip [(["a.jar"], Content.raw "x", false)], false, 0⟩)]
        ["a.jar"] ["p"]).fs ["a.jar"] =
      lookupFS [(["a.jar"],
        ⟨Content.zip [(["a.jar"], Content.raw "x", false)], false, 0⟩)] ["a.jar"] :=
  export_scaffold_preserve_archive_outside_destination 1 ⟨0, "", []⟩ cleanEnv
    [(["a.jar"], ⟨Content.zip [(["a.jar"], Content.raw "x", false)], false, 0⟩)]
    ["a.jar"] ["out"] ["p"]
    (fun q hq => by injection hq with hh _; exact absurd hh (by decide))
    (fun q hq => by injection hq with hh _; exact absurd hh (by decide))

/-- The concrete filesystem of the C1 counterexample: a compiled-class
file already sits below the future project root next to a trivial
archive. -/
def c1fs : FS :=
  [(["proj", "junk.class"], ⟨Content.raw "x", false, 0⟩),
   (["app.jar"], ⟨Content.zip [], false, 0⟩)]

/-- C1 counterexample: ProjectScaffold never runs the cleaner over the
project tree itself (only over its private temporary tree), so a
compiled-class file already below the project root survives a fully
successful run: the pipeline completes without raising, yet the output
location still contains a `*.class` file.  The invariant "after any
successful pipeline run, zero files matching the compiled-class pattern
remain under the output location" is therefore false as stated. -/
theorem pipelines_output_class_free_counterexample :
    (mode_3_gradle_project 1 ⟨0, "", []⟩ cleanEnv c1fs ["app.jar"] ["proj"]).err = none ∧
    underDir ["proj"] ["proj", "junk.class"] = true ∧
    isClassPath ["proj", "junk.class"] = true ∧
    (lookupFS (mode_3_gradle_project 1 ⟨0, "", []⟩ cleanEnv c1fs
        ["app.jar"] ["proj"]).fs ["proj", "junk.class"]).isSome = true :=
  ⟨by decide, by decide, by decide, by decide⟩

/-- C1 (amended): after a successful pipeline run the output location
contains zero compiled-class files, provided (i) no chmod/unlink failure
stops the cleaner from removing a matched file (removal is best-effort: a
logged failure leaves the file in the output), (ii) the decompiler emits
no `*.class`-named files, and (iii) for ProjectScaffold the project root
does not already hold `*.class` files.  Conditions (ii) and (iii) only
matter for ProjectScaffold, which never prunes the project tree; Inplace
and Export run the cleaner over the whole output after the decompiler. -/
theorem pipelines_output_class_free
    (now : Nat) (res : CFRResult) (env : RmEnv) (fs : FS)
    (jarPath outDir projDir : FPath)
    (hc : ∀ p, env.chmodFails p = false) (hu : ∀ p, env.unlinkFails p = false)
    (hro : ∀ o ∈ res.outputs, isClassPath o.1 = false)
    (hpre : ∀ e ∈ fs, underDir projDir e.1 = true → isClassPath e.1 = false)
    (hok : res.exitCode = 0) :
    (lookupFS (mode_1_inplace now res env fs jarPath).fs jarPath =
       some ⟨Content.zip (zipTree (inplaceTmp now res env fs jarPath)), false, now⟩ ∧
     ∀ e ∈ zipTree (inplaceTmp now res env fs jarPath), isClassPath e.1 = false) ∧
    (∀ e ∈ (mode_2_to_folder now res env fs jarPath outDir).fs,
      underDir outDir e.1 = true → isClassPath e.1 = false) ∧
    (∀ e ∈ (mode_3_gradle_project now res env fs jarPath projDir).fs,
      underDir projDir e.1 = true → isClassPath e.1 = false) := by
  refine ⟨⟨?_, ?_⟩, ?_, ?_⟩
  · rw [(mode_1_inplace_ok now res env fs jarPath hok).1, lookupFS_writeFS, if_pos rfl]
  · intro e he
    simp only [zipTree] at he
    rcases List.mem_map.1 he with ⟨pe, hpe, hfe⟩
    have hnc : isClassPath pe.1 = false := tmp_entry_not_class hc hu hpe
    rw [← hfe]
    exact hnc
  · intro e he hud
    rw [(mode_2_to_folder_ok now res env fs jarPath outDir hok).1] at he
    have hun := removeClassFiles_mem_unmatched he (hc e.1) (hu e.1)
    rw [hud] at hun
    exact hun
  · intro e he hud
    rw [(mode_3_gradle_project_ok now res env fs jarPath projDir hok).1] at he
    unfold writeFS at he
    rcases List.mem_cons.1 he with hg | hrest
    · rw [hg]
      show isClassPath (projDir ++ ["build.gradle"]) = false
      rw [isClassPath_append projDir (by decide)]
      decide
    · have hcop := mem_removeFS hrest
      unfold copyTree at hcop
      rcases mem_writeMany hcop with hitem | hrun
      · rcases List.mem_map.1 hitem with ⟨q, hq, hfe⟩
        rw [← hfe]
        show isClassPath (projDir ++ ["src", "main", "resources"] ++ q.1) = false
        cases hq1 : q.1 with
        | nil =>
          rw [List.append_nil]
          rw [isClassPath_append projDir (by decide)]
          decide
        | cons x xs =>
          rw [isClassPath_append (projDir ++ ["src", "main", "resources"]) (by simp)]
          have hnc := tmp_entry_not_class hc hu hq
          rw [hq1] at hnc
          exact hnc
      · rw [run_cfr_fs] at hrun
        rcases mem_writeMany hrun with hcfr | hfs0
        · rcases List.mem_map.1 hcfr with ⟨o, ho, hfe⟩
          rw [← hfe]
          show isClassPath (projDir ++ ["src", "main", "java"] ++ o.1) = false
          cases ho1 : o.1 with
          | nil =>
            rw [List.append_nil]
            rw [isClassPath_append projDir (by decide)]
            decide
          | cons x xs =>
            rw [isClassPath_append (projDir ++ ["src", "main", "java"]) (by simp)]
            have hnc := hro o ho
            rw [ho1] at hnc
            exact hnc
        · exact hpre e hfs0 hud

/-- Witness for `pipelines_output_class_free`: a concrete archive holding
one class file and a decompiler emitting one source file yields an archive
whose fresh zip holds exactly the source — no class entry. -/
theorem pipelines_output_class_free_witness :
    (0 : Nat) = 0 ∧
    lookupFS (mode_1_inplace 2 ⟨0, "", [(["A.java"], Content.raw "s")]⟩ cleanEnv
        [(["app.jar"], ⟨Content.zip [(["x.class"], Content.raw "c", false)], false, 0⟩)]
        ["app.jar"]).fs ["app.jar"] =
      some ⟨Content.zip [(["A.java"], Content.raw "s", false)], false, 2⟩ :=
  ⟨rfl,
   (pipelines_output_class_free 2 ⟨0, "", [(["A.java"], Content.raw "s")]⟩ cleanEnv
      [(["app.jar"], ⟨Content.zip [(["x.class"], Content.raw "c", false)], false, 0⟩)]
      ["app.jar"] ["out"] ["proj"]
      (fun _ => rfl) (fun _ => rfl) (by decide) (by decide) rfl).1.1⟩
